import Mathlib

/-!
# Verification of the intervals-analysis client-side analytics engine

Shallow embedding of the trace/aggregation manager (the module exporting
`addTrace` / `clearTraces` / `getTracesLength`) and of the activity card
renderer (`parseWKT`, `generateSparkline`, `sample`, `renderWorkoutCards`,
and the monolithic variant's `wktToSvgPath`).

Numbers are modelled as rationals (`ℚ`); dates as ISO-8601 strings compared
lexicographically on their character lists (which on `YYYY-MM-DD` strings
agrees with chronological order, matching the SQL `date >= '...'`
comparisons the code splices into its queries).  The DuckDB query engine is
external to the repository; the two SQL aggregation queries issued by
`addTrace` are embedded as Lean functions that follow the query text
literally (filter, bucket by `FLOOR(watts/5)*5`, `GROUP BY` + `ORDER BY
watt_bucket`, `AVG(heartrate)`, `SUM(duration_seconds)/3600.0`).
-/

namespace Intervals

/-! ## String utilities

Executable counterparts of the string comparisons the code relies on
(`String.le` and `String.startsWith` in the runtime), defined by structural
recursion on the character list so that concrete instances reduce. -/

/-- Lexicographic `≤` on character lists; `lexLe a.data b.data` is the
comparison the SQL engine performs for `date >= '...'` / `date <= '...'`
on ISO-8601 date strings. -/
def lexLe : List Char → List Char → Bool
  | [], _ => true
  | _ :: _, [] => false
  | a :: as, b :: bs =>
    if a < b then true else if b < a then false else lexLe as bs

/-- SQL string comparison `a <= b` on the underlying characters. -/
def strLe (a b : String) : Bool := lexLe a.data b.data

/-- Whether `pre` is an initial segment of `l` (JavaScript
`String.prototype.startsWith` on the character lists). -/
def isLeadOf : List Char → List Char → Bool
  | [], _ => true
  | _ :: _, [] => false
  | a :: as, b :: bs => a == b && isLeadOf as bs

/-- JavaScript `s.startsWith(pre)`. -/
def jsStartsWith (s pre : String) : Bool := isLeadOf pre.data s.data

/-! ## The `metrics` data model and the two aggregation queries -/

/-- One row of the `metrics` view: `metrics(date, watts, heartrate,
duration_seconds)`. -/
structure MetricSample where
  date : String
  watts : ℚ
  heartrate : ℚ
  duration_seconds : ℚ
deriving DecidableEq

/-- Power bucket of a watts value: the SQL expression
`CAST(FLOOR(watts / 5) * 5 AS INTEGER)` used by both aggregation queries. -/
def wattBucket (w : ℚ) : ℤ := ⌊w / 5⌋ * 5

/-- The `WHERE` clause of the fitness (efficiency) query:
`date >= startDate AND date <= endDate AND watts <= maxWatts AND
heartrate > 40 AND heartrate < 210`. -/
def qualifiesEff (startDate endDate : String) (maxWatts : ℚ)
    (s : MetricSample) : Bool :=
  strLe startDate s.date && strLe s.date endDate &&
    decide (s.watts ≤ maxWatts) &&
    decide ((40 : ℚ) < s.heartrate) && decide (s.heartrate < (210 : ℚ))

/-- The `WHERE` clause of the distribution query: the same date-range and
power-ceiling conditions, with no heart-rate condition. -/
def qualifiesDist (startDate endDate : String) (maxWatts : ℚ)
    (s : MetricSample) : Bool :=
  strLe startDate s.date && strLe s.date endDate &&
    decide (s.watts ≤ maxWatts)

/-- Rows of `metrics` satisfying the fitness query's `WHERE` clause. -/
def effSamples (db : List MetricSample) (startDate endDate : String)
    (maxWatts : ℚ) : List MetricSample :=
  db.filter (qualifiesEff startDate endDate maxWatts)

/-- Rows of `metrics` satisfying the distribution query's `WHERE` clause. -/
def distSamples (db : List MetricSample) (startDate endDate : String)
    (maxWatts : ℚ) : List MetricSample :=
  db.filter (qualifiesDist startDate endDate maxWatts)

/-- Insert a bucket key into a strictly ascending list of bucket keys,
keeping it strictly ascending (duplicates collapse). -/
def insertBucket (b : ℤ) : List ℤ → List ℤ
  | [] => [b]
  | a :: l =>
    if b < a then b :: a :: l
    else if b = a then a :: l
    else a :: insertBucket b l

/-- The distinct bucket keys of a list, in ascending order: the effect of
SQL `GROUP BY watt_bucket ORDER BY watt_bucket` on the key column. -/
def sortBuckets : List ℤ → List ℤ
  | [] => []
  | b :: l => insertBucket b (sortBuckets l)

/-- The `watt_bucket` column returned by the fitness query: distinct
buckets of the qualifying rows, ascending. -/
def fitnessWatts (db : List MetricSample) (startDate endDate : String)
    (maxWatts : ℚ) : List ℤ :=
  sortBuckets ((effSamples db startDate endDate maxWatts).map
    (fun s => wattBucket s.watts))

/-- Mean heart rate of the rows of `l` falling in bucket `b`
(SQL `AVG(heartrate)` for that group). -/
def avgHrAt (l : List MetricSample) (b : ℤ) : ℚ :=
  let g := l.filter (fun s => wattBucket s.watts == b)
  ((g.map (fun s => s.heartrate)).sum) / (g.length : ℚ)

/-- The `avg_hr` column returned by the fitness query, aligned with
`fitnessWatts`. -/
def fitnessHrs (db : List MetricSample) (startDate endDate : String)
    (maxWatts : ℚ) : List ℚ :=
  (fitnessWatts db startDate endDate maxWatts).map
    (avgHrAt (effSamples db startDate endDate maxWatts))

/-- The `watt_bucket` column returned by the distribution query. -/
def distWatts (db : List MetricSample) (startDate endDate : String)
    (maxWatts : ℚ) : List ℤ :=
  sortBuckets ((distSamples db startDate endDate maxWatts).map
    (fun s => wattBucket s.watts))

/-- Hours spent in bucket `b` among the rows of `l`
(SQL `SUM(duration_seconds) / 3600.0` for that group). -/
def hoursAt (l : List MetricSample) (b : ℤ) : ℚ :=
  ((l.filter (fun s => wattBucket s.watts == b)).map
    (fun s => s.duration_seconds)).sum / 3600

/-- The `hours` column returned by the distribution query, aligned with
`distWatts`. -/
def distHours (db : List MetricSample) (startDate endDate : String)
    (maxWatts : ℚ) : List ℚ :=
  (distWatts db startDate endDate maxWatts).map
    (hoursAt (distSamples db startDate endDate maxWatts))

/-! ## The trace overlay store (`charts.js`) -/

/-- One Plotly series as pushed by `addTrace`: the two data columns, the
`name` field (trace label) and the `line.color` field.  The remaining
Plotly fields (`type`, `mode`, `width`, `shape`, `fill`) are presentation
constants with no algorithmic content. -/
structure Series where
  x : List ℤ
  y : List ℚ
  name : String
  color : String
deriving DecidableEq

/-- The module-level mutable state of `charts.js`: the `traces` and
`distTraces` arrays. -/
structure ChartState where
  traces : List Series
  distTraces : List Series
deriving DecidableEq

/-- The 8-colour palette `COLORS`. -/
def COLORS : List String :=
  ["#3b82f6", "#ef4444", "#10b981", "#f59e0b", "#8b5cf6",
   "#ec4899", "#06b6d4", "#f97316"]

/-- Result of one `addTrace` call: the new store state, whether the user
was notified (`alert`), and whether `renderCharts()` was invoked. -/
structure AddTraceResult where
  state : ChartState
  alerted : Bool
  rendered : Bool
deriving DecidableEq

/-- The `addTrace(label, startDate, endDate, silent)` operation.  `db` is
the content of the `metrics` view and `maxWatts` the current value of the
`max-watts` input (the DOM read `maxWattsInput ? maxWattsInput.value : 400`
is modelled by passing the effective ceiling as an argument).  Follows the
source: reject empty dates (alert unless `silent`); run the two aggregation
queries; if the fitness query returned no rows, alert unless `silent` and
leave the store untouched; otherwise push one series to `traces` and one to
`distTraces`, both named `label` and coloured
`COLORS[traces.length % COLORS.length]`, then re-render. -/
def addTrace (db : List MetricSample) (st : ChartState)
    (label startDate endDate : String) (maxWatts : ℚ) (silent : Bool) :
    AddTraceResult :=
  if startDate.isEmpty || endDate.isEmpty then
    { state := st, alerted := !silent, rendered := false }
  else
    let fw := fitnessWatts db startDate endDate maxWatts
    let fh := fitnessHrs db startDate endDate maxWatts
    let dw := distWatts db startDate endDate maxWatts
    let dh := distHours db startDate endDate maxWatts
    if fw.isEmpty then
      { state := st, alerted := !silent, rendered := false }
    else
      let color := COLORS[st.traces.length % COLORS.length]!
      { state :=
          { traces := st.traces ++
              [{ x := fw, y := fh, name := label, color := color }],
            distTraces := st.distTraces ++
              [{ x := dw, y := dh, name := label, color := color }] },
        alerted := false,
        rendered := true }

/-- The `clearTraces()` operation: both arrays are reset to `[]`. -/
def clearTraces (_st : ChartState) : ChartState :=
  { traces := [], distTraces := [] }

/-- The exported `getTracesLength()` accessor. -/
def getTracesLength (st : ChartState) : Nat := st.traces.length

/-- The store before any operation: `let traces = []; let distTraces = []`. -/
def initialState : ChartState := { traces := [], distTraces := [] }

/-- One UI-level store operation. -/
inductive ChartOp where
  | add (label startDate endDate : String) (maxWatts : ℚ) (silent : Bool)
  | clear
deriving DecidableEq

/-- Apply one operation to the store. -/
def applyOp (db : List MetricSample) (st : ChartState) :
    ChartOp → ChartState
  | ChartOp.add label startDate endDate maxWatts silent =>
    (addTrace db st label startDate endDate maxWatts silent).state
  | ChartOp.clear => clearTraces st

/-- Run a sequence of `addTrace` / `clearTraces` operations from the
initial empty store. -/
def runOps (db : List MetricSample) (ops : List ChartOp) : ChartState :=
  ops.foldl (applyOp db) initialState

/-! ## JavaScript string/number helpers used by the card renderer -/

/-- Index of the first occurrence of `c`, counting from `i`. -/
def charIndexAux (c : Char) : List Char → Nat → Option Nat
  | [], _ => none
  | a :: l, i => if a == c then some i else charIndexAux c l (i + 1)

/-- JavaScript `s.indexOf(c)`: first index of `c`, or `-1`. -/
def jsIndexOf (s : List Char) (c : Char) : ℤ :=
  match charIndexAux c s 0 with
  | some i => (i : ℤ)
  | none => -1

/-- JavaScript `s.lastIndexOf(c)`: last index of `c`, or `-1`. -/
def jsLastIndexOf (s : List Char) (c : Char) : ℤ :=
  match charIndexAux c s.reverse 0 with
  | some i => (s.length : ℤ) - 1 - (i : ℤ)
  | none => -1

/-- JavaScript `s.substring(a, b)`: both arguments are clamped to
`[0, length]` and swapped if out of order. -/
def jsSubstring (s : List Char) (a b : ℤ) : List Char :=
  let lo := (min (max a 0) (s.length : ℤ)).toNat
  let hi := (min (max b 0) (s.length : ℤ)).toNat
  if lo ≤ hi then (s.drop lo).take (hi - lo)
  else (s.drop hi).take (lo - hi)

/-- JavaScript `s.split(sep)` for a one-character separator. -/
def splitOnChar (c : Char) : List Char → List (List Char)
  | [] => [[]]
  | a :: l =>
    if a == c then [] :: splitOnChar c l
    else
      match splitOnChar c l with
      | [] => [[a]]
      | h :: t => (a :: h) :: t

/-- JavaScript `s.trim()`. -/
def jsTrim (l : List Char) : List Char :=
  ((l.dropWhile Char.isWhitespace).reverse.dropWhile Char.isWhitespace).reverse

/-- Value of a digit list read left to right onto an accumulator. -/
def digitsVal : List Char → Nat → Option Nat
  | [], acc => some acc
  | c :: l, acc =>
    if c.isDigit then digitsVal l (acc * 10 + (c.toNat - '0'.toNat)) else none

/-- Parse an optionally signed decimal literal (`-12`, `3.25`, `.5`). -/
def parseDec (t : List Char) : Option ℚ :=
  let sign : ℚ × List Char :=
    match t with
    | c :: r => if c == '-' then (-1, r) else if c == '+' then (1, r) else (1, t)
    | [] => (1, t)
  let intDigits := sign.2.takeWhile Char.isDigit
  let rest := sign.2.dropWhile Char.isDigit
  match rest with
  | [] =>
    if intDigits.isEmpty then none
    else (digitsVal intDigits 0).map (fun n => sign.1 * (n : ℚ))
  | c :: frac =>
    if c == '.' && !(intDigits.isEmpty && frac.isEmpty) then
      match digitsVal intDigits 0, digitsVal frac 0 with
      | some n, some f =>
        some (sign.1 * ((n : ℚ) + (f : ℚ) / ((10 : ℚ) ^ frac.length)))
      | _, _ => none
    else none

/-- Model of JavaScript `Number(s)` on the tokens produced by WKT
splitting: whitespace is trimmed, the empty string is `0`, and a decimal
literal takes its value.  A non-numeric token is `NaN` in JavaScript; no
theorem in this development depends on that case, and it is mapped to `0`
here. -/
def jsNumber (l : List Char) : ℚ :=
  let t := jsTrim l
  if t.isEmpty then 0
  else
    match parseDec t with
    | some q => q
    | none => 0

/-- JavaScript `Math.round`: `⌊x + 1/2⌋`. -/
def jsRound (q : ℚ) : ℤ := ⌊q + 1 / 2⌋

/-- JavaScript `x.toFixed(1)`: the value rounded to one decimal digit,
printed with exactly one digit after the point. -/
def fmt1 (q : ℚ) : String :=
  let n := jsRound (q * 10)
  let a := n.natAbs
  (if n < 0 then "-" else "") ++ toString (a / 10) ++ "." ++ toString (a % 10)

/-- `List.map` with the element index, the way JavaScript's `map` and
`filter` callbacks receive `(value, index)`. -/
def jsMapIdx (f : Nat → α → β) : Nat → List α → List β
  | _, [] => []
  | i, a :: l => f i a :: jsMapIdx f (i + 1) l

/-! ## Stream downsampling (`sample`) -/

/-- The indexed filter `arr.filter((_, i) => i % step === 0)`. -/
def sampleIdx (step : Nat) : Nat → List α → List α
  | _, [] => []
  | i, a :: l =>
    if i % step == 0 then a :: sampleIdx step (i + 1) l
    else sampleIdx step (i + 1) l

/-- The `sample(arr, target)` helper: streams not longer than `target` are
returned unchanged; otherwise `step = Math.ceil(arr.length / target)`
(which for `0 < target` is `(length + target - 1) / target` in natural
division) and every `step`-th element is kept. -/
def sample (arr : List α) (target : Nat) : List α :=
  if arr.length ≤ target then arr
  else sampleIdx ((arr.length + target - 1) / target) 0 arr

/-! ## Geometry parsing (`parseWKT`) -/

/-- A longitude/latitude point. -/
structure Pt where
  x : ℚ
  y : ℚ
deriving DecidableEq

/-- The point-list extraction shared by `parseWKT` and `wktToSvgPath`:
take the text between the first `(` and the last `)`, split it on `,`,
and read each piece as `x y` (`p.trim().split(' ').map(Number)`; a missing
coordinate is `undefined` in JavaScript, modelled as `0`, a case no
theorem depends on). -/
def parseLinePoints (wkt : String) : List Pt :=
  let s := wkt.data
  let content := jsSubstring s (jsIndexOf s '(' + 1) (jsLastIndexOf s ')')
  (splitOnChar ',' content).map (fun p =>
    let parts := (splitOnChar ' ' (jsTrim p)).map jsNumber
    { x := parts.getD 0 0, y := parts.getD 1 0 })

/-- `parseWKT(wkt)` from the card renderer: a string that is null or does
not start with `LINESTRING` yields the empty point sequence; otherwise the
coordinates are parsed. -/
def parseWKT (wkt : String) : List Pt :=
  if !(jsStartsWith wkt "LINESTRING") then []
  else parseLinePoints wkt

/-! ## Sparkline generation (`generateSparkline`) -/

/-- `Math.min(...data)` for the non-empty streams the guard admits. -/
def listMin : List ℚ → ℚ
  | [] => 0
  | a :: l => l.foldl min a

/-- `Math.max(...data)`. -/
def listMax : List ℚ → ℚ
  | [] => 0
  | a :: l => l.foldl max a

/-- `const range = max - min || 1`: the value range with `0` replaced by
`1`. -/
def sparkRange (data : List ℚ) : ℚ :=
  if listMax data - listMin data = 0 then 1 else listMax data - listMin data

/-- Horizontal position of index `i`: `(i / (data.length - 1)) * width`. -/
def sparkX (data : List ℚ) (width : ℚ) (i : Nat) : ℚ :=
  ((i : ℚ) / ((data.length : ℚ) - 1)) * width

/-- Vertical position of value `v`:
`height - ((val - min) / range) * height` (inverted axis). -/
def sparkY (data : List ℚ) (height : ℚ) (v : ℚ) : ℚ :=
  height - ((v - listMin data) / sparkRange data) * height

/-- The coordinate pairs of the sparkline polyline. -/
def sparkPoints (data : List ℚ) (width height : ℚ) : List (ℚ × ℚ) :=
  jsMapIdx (fun i v => (sparkX data width i, sparkY data height v)) 0 data

/-- `generateSparkline(data, width, height, color)`: empty data yields the
empty string, otherwise an SVG polyline through `sparkPoints`. -/
def generateSparkline (data : List ℚ) (width height : ℚ)
    (color : String) : String :=
  if data.isEmpty then ""
  else
    let pts := (sparkPoints data width height).map
      (fun p => fmt1 p.1 ++ "," ++ fmt1 p.2)
    "<polyline points=\"" ++ String.intercalate " " pts ++
      "\" fill=\"none\" stroke=\"" ++ color ++ "\" stroke-width=\"1\" />"

/-! ## Static route normalization (`wktToSvgPath`) -/

/-- Least x-coordinate of a point list (the `minX` loop of
`wktToSvgPath`, which starts from `Infinity`; the empty case is guarded in
the source). -/
def minXOf : List Pt → ℚ
  | [] => 0
  | p :: l => l.foldl (fun m q => min m q.x) p.x

/-- Greatest x-coordinate. -/
def maxXOf : List Pt → ℚ
  | [] => 0
  | p :: l => l.foldl (fun m q => max m q.x) p.x

/-- Least y-coordinate. -/
def minYOf : List Pt → ℚ
  | [] => 0
  | p :: l => l.foldl (fun m q => min m q.y) p.y

/-- Greatest y-coordinate. -/
def maxYOf : List Pt → ℚ
  | [] => 0
  | p :: l => l.foldl (fun m q => max m q.y) p.y

/-- `const paddingX = (maxX - minX) * 0.05`. -/
def padX (ps : List Pt) : ℚ := (maxXOf ps - minXOf ps) * (5 / 100)

/-- `const paddingY = (maxY - minY) * 0.05`. -/
def padY (ps : List Pt) : ℚ := (maxYOf ps - minYOf ps) * (5 / 100)

/-- `minX -= paddingX`. -/
def pMinX (ps : List Pt) : ℚ := minXOf ps - padX ps

/-- `maxX += paddingX`. -/
def pMaxX (ps : List Pt) : ℚ := maxXOf ps + padX ps

/-- `minY -= paddingY`. -/
def pMinY (ps : List Pt) : ℚ := minYOf ps - padY ps

/-- `maxY += paddingY`. -/
def pMaxY (ps : List Pt) : ℚ := maxYOf ps + padY ps

/-- `const rangeX = maxX - minX || 1` on the padded box. -/
def rangeX (ps : List Pt) : ℚ :=
  if pMaxX ps - pMinX ps = 0 then 1 else pMaxX ps - pMinX ps

/-- `const rangeY = maxY - minY || 1` on the padded box. -/
def rangeY (ps : List Pt) : ℚ :=
  if pMaxY ps - pMinY ps = 0 then 1 else pMaxY ps - pMinY ps

/-- `const sx = ((p.x - minX) / rangeX) * width`. -/
def svgX (ps : List Pt) (width : ℚ) (p : Pt) : ℚ :=
  ((p.x - pMinX ps) / rangeX ps) * width

/-- `const sy = height - ((p.y - minY) / rangeY) * height`: the vertical
axis is inverted because latitude increases upward while the SVG y-axis
increases downward. -/
def svgY (ps : List Pt) (height : ℚ) (p : Pt) : ℚ :=
  height - ((p.y - pMinY ps) / rangeY ps) * height

/-- The `d` attribute of the path
(`points.map((p,i) => ...M/L...).join(' ')`). -/
def svgPathD (ps : List Pt) (width height : ℚ) : String :=
  String.intercalate " "
    (jsMapIdx (fun i p =>
      (if i == 0 then "M" else "L") ++ " " ++ fmt1 (svgX ps width p) ++
        " " ++ fmt1 (svgY ps height p)) 0 ps)

/-- `wktToSvgPath(wkt, width, height)` of the monolithic renderer. -/
def wktToSvgPath (wkt : String) (width height : ℚ) : String :=
  if !(jsStartsWith wkt "LINESTRING") then ""
  else
    let points := parseLinePoints wkt
    if points.length == 0 then ""
    else
      "<path d=\"" ++ svgPathD points width height ++
        "\" fill=\"none\" stroke=\"#22d3ee\" stroke-width=\"2\"" ++
        " stroke-linecap=\"round\" stroke-linejoin=\"round\" />"

/-! ## The activity card renderer (`renderWorkoutCards`) -/

/-- One row of the `routes` view as consumed by the renderer.  A null
stream (`row.watts_stream ? Array.from(...) : []`) is modelled as the
empty list. -/
structure RouteRow where
  activity_id : String
  activity_name : String
  date : String
  wkt_geometry : String
  watts_stream : List ℚ
  hr_stream : List ℚ
  avg_watts : ℚ
  avg_hr : ℚ
  duration_seconds : ℚ
deriving DecidableEq

/-- The visual summary produced for one route: header fields, the parsed
route path (empty when the geometry was rejected), the two sparklines and
the rounded stats. -/
structure VisualCard where
  title : String
  date : String
  coords : List Pt
  powerLine : String
  hrLine : String
  avgHr : ℤ
  avgWatts : ℤ
  hours : String
deriving DecidableEq

/-- The per-row body of the `routes.forEach` loop in `renderWorkoutCards`:
stats are rounded (`Math.round(row.avg_watts || 0)`, duration to hours with
one decimal), both streams are downsampled to 150 points and drawn as
sparklines, and the geometry is parsed with `parseWKT` (an empty result
means the card gets no path). -/
def renderCard (row : RouteRow) : VisualCard :=
  { title := row.activity_name
    date := row.date
    coords := parseWKT row.wkt_geometry
    powerLine := generateSparkline (sample row.watts_stream 150) 300 40 "#93c5fd"
    hrLine := generateSparkline (sample row.hr_stream 150) 300 40 "#fca5a5"
    avgHr := jsRound row.avg_hr
    avgWatts := jsRound row.avg_watts
    hours := fmt1 (row.duration_seconds / 3600) }

/-- `renderWorkoutCards` on the rows returned by the `routes` query: one
card per row, in order. -/
def renderWorkoutCards (rows : List RouteRow) : List VisualCard :=
  rows.map renderCard

/-! ## Lemmas: `sortBuckets` produces the strictly ascending distinct keys -/

theorem mem_insertBucket {x b : ℤ} {l : List ℤ} :
    x ∈ insertBucket b l ↔ x = b ∨ x ∈ l := by
  induction l with
  | nil => simp [insertBucket]
  | cons a l ih =>
    by_cases hba : b < a
    · simp [insertBucket, hba, List.mem_cons]
    · by_cases hbe : b = a
      · subst hbe
        simp only [insertBucket, hba, if_false, if_true, List.mem_cons,
          eq_self_iff_true, ite_true]
        tauto
      · simp only [insertBucket, hba, if_false, hbe, List.mem_cons, ih]
        tauto

theorem pairwise_insertBucket {b : ℤ} {l : List ℤ}
    (h : l.Pairwise (· < ·)) :
    (insertBucket b l).Pairwise (· < ·) := by
  induction l with
  | nil => simp [insertBucket]
  | cons a l ih =>
    rw [List.pairwise_cons] at h
    by_cases hba : b < a
    · rw [insertBucket, if_pos hba, List.pairwise_cons]
      refine ⟨?_, List.pairwise_cons.2 h⟩
      intro y hy
      rcases List.mem_cons.1 hy with rfl | hy
      · exact hba
      · exact lt_trans hba (h.1 y hy)
    · by_cases hbe : b = a
      · subst hbe
        rw [insertBucket, if_neg hba, if_pos rfl]
        exact List.pairwise_cons.2 h
      · have hab : a < b := lt_of_le_of_ne (not_lt.1 hba) (Ne.symm hbe)
        rw [insertBucket, if_neg hba, if_neg hbe, List.pairwise_cons]
        refine ⟨?_, ih h.2⟩
        intro y hy
        rcases mem_insertBucket.1 hy with rfl | hy
        · exact hab
        · exact h.1 y hy

theorem sortBuckets_pairwise (l : List ℤ) :
    (sortBuckets l).Pairwise (· < ·) := by
  induction l with
  | nil => simp [sortBuckets]
  | cons b l ih => exact pairwise_insertBucket ih

theorem mem_sortBuckets {x : ℤ} {l : List ℤ} :
    x ∈ sortBuckets l ↔ x ∈ l := by
  induction l with
  | nil => simp [sortBuckets]
  | cons b l ih => simp [sortBuckets, mem_insertBucket, ih]

theorem sortBuckets_eq_nil {l : List ℤ} :
    sortBuckets l = [] ↔ l = [] := by
  constructor
  · intro h
    cases l with
    | nil => rfl
    | cons b l =>
      exfalso
      have : b ∈ sortBuckets (b :: l) := mem_sortBuckets.2 (List.mem_cons_self b l)
      rw [h] at this
      exact List.not_mem_nil b this
  · rintro rfl
    rfl

/-- The head of a strictly ascending list bounds every member. -/
theorem head_le_of_pairwise {a : ℤ} {l : List ℤ}
    (h : (a :: l).Pairwise (· < ·)) :
    ∀ b ∈ a :: l, a ≤ b := by
  intro b hb
  rcases List.mem_cons.1 hb with rfl | hb
  · exact le_refl b
  · exact le_of_lt ((List.pairwise_cons.1 h).1 b hb)

/-- `wattBucket` is monotone. -/
theorem wattBucket_mono {a b : ℚ} (h : a ≤ b) : wattBucket a ≤ wattBucket b := by
  unfold wattBucket
  have h5 : (0 : ℚ) < 5 := by norm_num
  have : a / 5 ≤ b / 5 := by
    exact (div_le_div_iff_of_pos_right h5).2 h
  exact mul_le_mul_of_nonneg_right (Int.floor_le_floor this) (by norm_num)

/-! ## Lemmas: the indexed filter of `sample` keeps exactly the stride -/

/-- Element `j` of the indexed filter started at counter `s` is element
`(step - s % step) % step + j * step` of the remaining stream: the kept
indices are the multiples of `step`, so from counter `s` the next kept
element is `(step - s % step) % step` positions away and successive kept
elements are `step` apart. -/
theorem sampleIdx_get? {α : Type _} (step : Nat) (hs : 0 < step) :
    ∀ (t : List α) (s j : Nat),
      (sampleIdx step s t).get? j =
        t.get? ((step - s % step) % step + j * step) := by
  intro t
  induction t with
  | nil => intro s j; simp [sampleIdx]
  | cons a ts ih =>
    intro s j
    by_cases h : s % step = 0
    · have hoff : (step - s % step) % step = 0 := by
        rw [h, Nat.sub_zero, Nat.mod_self]
      rw [hoff]
      have hcond : (s % step == 0) = true := by simp [h]
      rw [sampleIdx]
      simp only [hcond, if_true]
      cases j with
      | zero => simp
      | succ j =>
        have hmod : (s + 1) % step = 1 % step := by
          rw [Nat.add_mod, h]
          simp
        have hoff2 : (step - (s + 1) % step) % step = step - 1 := by
          by_cases h1 : step = 1
          · subst h1; omega
          · have h2 : 1 % step = 1 := Nat.mod_eq_of_lt (by omega)
            rw [hmod, h2]
            exact Nat.mod_eq_of_lt (by omega)
        have hidx : 0 + (j + 1) * step = (step - 1 + j * step) + 1 := by
          rw [Nat.succ_mul]
          omega
        rw [hidx, List.get?_cons_succ, ih (s + 1) j, hoff2,
          List.get?_cons_succ]
    · have hr1 : 1 ≤ s % step := Nat.one_le_iff_ne_zero.2 h
      have hrlt : s % step < step := Nat.mod_lt s hs
      have hoff : (step - s % step) % step = step - s % step :=
        Nat.mod_eq_of_lt (by omega)
      rw [sampleIdx, if_neg (by simp [h])]
      have hstep2 : 2 ≤ step := by omega
      have hmod : (s + 1) % step = (s % step + 1) % step := by
        rw [Nat.add_mod]
        congr 1
        rw [Nat.mod_eq_of_lt (by omega : 1 < step)]
      have hoff2 : (step - (s + 1) % step) % step = step - s % step - 1 := by
        by_cases hfull : s % step + 1 = step
        · rw [hmod, hfull, Nat.mod_self, Nat.sub_zero, Nat.mod_self]
          omega
        · have : (s % step + 1) % step = s % step + 1 :=
            Nat.mod_eq_of_lt (by omega)
          rw [hmod, this]
          exact Nat.mod_eq_of_lt (by omega)
      have hidx : (step - s % step) % step + j * step =
          (step - s % step - 1 + j * step) + 1 := by
        rw [hoff]
        omega
      rw [hidx, List.get?_cons_succ, ih (s + 1) j, hoff2]

/-- On a stream longer than the (positive) target, `sample` keeps exactly
the elements whose index is a multiple of
`step = ceil(length / target)`. -/
theorem sample_get? {α : Type _} (arr : List α) (target : Nat)
    (ht : 0 < target) (h : target < arr.length) (j : Nat) :
    (sample arr target).get? j =
      arr.get? (j * ((arr.length + target - 1) / target)) := by
  unfold sample
  rw [if_neg (by omega)]
  have hs : 0 < (arr.length + target - 1) / target :=
    Nat.div_pos (by omega) ht
  have hk := sampleIdx_get? ((arr.length + target - 1) / target) hs arr 0 j
  simpa using hk

/-- The indexed filter is a sublist of the stream. -/
theorem sampleIdx_sublist {α : Type _} (step : Nat) :
    ∀ (t : List α) (s : Nat), (sampleIdx step s t).Sublist t := by
  intro t
  induction t with
  | nil => intro s; simp [sampleIdx]
  | cons a ts ih =>
    intro s
    rw [sampleIdx]
    by_cases h : (s % step == 0) = true
    · rw [if_pos h]
      exact (ih (s + 1)).cons₂ a
    · rw [if_neg h]
      exact (ih (s + 1)).cons a

/-- `sample` returns a sublist of its input: elements are kept in their
original order and never altered. -/
theorem sample_sublist {α : Type _} (arr : List α) (target : Nat) :
    (sample arr target).Sublist arr := by
  unfold sample
  by_cases h : arr.length ≤ target
  · rw [if_pos h]
  · rw [if_neg h]
    exact sampleIdx_sublist _ arr 0

/-- `sample` keeps the first element of a non-empty stream. -/
theorem sample_head? {α : Type _} (arr : List α) (target : Nat) :
    (sample arr target).head? = arr.head? := by
  unfold sample
  by_cases h : arr.length ≤ target
  · rw [if_pos h]
  · rw [if_neg h]
    cases arr with
    | nil => rfl
    | cons a ts =>
      rw [sampleIdx]
      simp

/-- With target 150, the output of `sample` never exceeds 150 elements. -/
theorem sample_length_le {α : Type _} (arr : List α) :
    (sample arr 150).length ≤ 150 := by
  by_cases h : arr.length ≤ 150
  · unfold sample
    rw [if_pos h]
    exact h
  · have h' : 150 < arr.length := by omega
    have hget := sample_get? arr 150 (by norm_num) h' 150
    have hnone : arr.get? (150 * ((arr.length + 150 - 1) / 150)) = none := by
      rw [List.get?_eq_none]
      omega
    rw [hnone] at hget
    exact List.get?_eq_none.1 hget

/-! ## Lemmas: the two stores always stay paired -/

/-- The name/colour tags of a series list. -/
def seriesTag (l : List Series) : List (String × String) :=
  l.map (fun t => (t.name, t.color))

/-- Every operation preserves equality of the two stores' tag lists:
`addTrace` either changes nothing or appends one series with the same
label and colour to each store, and `clearTraces` empties both. -/
theorem applyOp_tag (db : List MetricSample) (st : ChartState) (op : ChartOp)
    (h : seriesTag st.traces = seriesTag st.distTraces) :
    seriesTag (applyOp db st op).traces =
      seriesTag (applyOp db st op).distTraces := by
  cases op with
  | clear => rfl
  | add label s e mW silent =>
    simp only [applyOp, addTrace]
    by_cases h1 : (s.isEmpty || e.isEmpty) = true
    · rw [if_pos h1]
      exact h
    · rw [if_neg h1]
      by_cases h2 : (fitnessWatts db s e mW).isEmpty = true
      · rw [if_pos h2]
        exact h
      · rw [if_neg h2]
        simp only [seriesTag, List.map_append, List.map_cons, List.map_nil]
          at h ⊢
        rw [h]

/-- After any operation sequence from the initial store, the tag lists of
the two stores coincide. -/
theorem runOps_tag (db : List MetricSample) (ops : List ChartOp) :
    seriesTag (runOps db ops).traces = seriesTag (runOps db ops).distTraces := by
  suffices h : ∀ st : ChartState,
      seriesTag st.traces = seriesTag st.distTraces →
      seriesTag (ops.foldl (applyOp db) st).traces =
        seriesTag (ops.foldl (applyOp db) st).distTraces by
    exact h initialState rfl
  induction ops with
  | nil => exact fun st h => h
  | cons op rest ih =>
    intro st h
    exact ih (applyOp db st op) (applyOp_tag db st op h)

/-! ## Lemmas: how `addTrace` branches -/

/-- When both dates are non-empty and the fitness query returned rows,
`addTrace` takes its success branch: it appends exactly one series to each
store (label and palette colour shared) and re-renders. -/
theorem addTrace_run (db : List MetricSample) (st : ChartState)
    (label startDate endDate : String) (maxWatts : ℚ) (silent : Bool)
    (hs : startDate.isEmpty = false) (he : endDate.isEmpty = false)
    (hne : fitnessWatts db startDate endDate maxWatts ≠ []) :
    addTrace db st label startDate endDate maxWatts silent =
      { state :=
          { traces := st.traces ++
              [{ x := fitnessWatts db startDate endDate maxWatts,
                 y := fitnessHrs db startDate endDate maxWatts,
                 name := label,
                 color := COLORS[st.traces.length % COLORS.length]! }],
            distTraces := st.distTraces ++
              [{ x := distWatts db startDate endDate maxWatts,
                 y := distHours db startDate endDate maxWatts,
                 name := label,
                 color := COLORS[st.traces.length % COLORS.length]! }] },
        alerted := false,
        rendered := true } := by
  simp only [addTrace]
  rw [if_neg (by simp [hs, he])]
  rw [if_neg (by simp [List.isEmpty_iff, hne])]

/-- If an `addTrace` call changed the number of stored traces, it was a
successful append: both stores grew by the same single series pair. -/
theorem addTrace_append_shape (db : List MetricSample) (st : ChartState)
    (label startDate endDate : String) (maxWatts : ℚ) (silent : Bool)
    (happend :
      (addTrace db st label startDate endDate maxWatts silent).state.traces.length ≠
        st.traces.length) :
    (addTrace db st label startDate endDate maxWatts silent).state.traces =
      st.traces ++
        [{ x := fitnessWatts db startDate endDate maxWatts,
           y := fitnessHrs db startDate endDate maxWatts,
           name := label,
           color := COLORS[st.traces.length % COLORS.length]! }] ∧
    (addTrace db st label startDate endDate maxWatts silent).state.distTraces =
      st.distTraces ++
        [{ x := distWatts db startDate endDate maxWatts,
           y := distHours db startDate endDate maxWatts,
           name := label,
           color := COLORS[st.traces.length % COLORS.length]! }] := by
  simp only [addTrace] at happend ⊢
  by_cases h1 : (startDate.isEmpty || endDate.isEmpty) = true
  · rw [if_pos h1] at happend
    exact absurd rfl happend
  · rw [if_neg h1] at happend ⊢
    by_cases h2 : (fitnessWatts db startDate endDate maxWatts).isEmpty = true
    · rw [if_pos h2] at happend
      exact absurd rfl happend
    · rw [if_neg h2]
      exact ⟨rfl, rfl⟩

/-- A qualifying sample makes the fitness bucket list non-empty. -/
theorem fitnessWatts_ne_nil (db : List MetricSample)
    (startDate endDate : String) (maxWatts : ℚ) (r : MetricSample)
    (hr : r ∈ db) (hqr : qualifiesEff startDate endDate maxWatts r = true) :
    fitnessWatts db startDate endDate maxWatts ≠ [] := by
  have h1 : r ∈ effSamples db startDate endDate maxWatts :=
    List.mem_filter.2 ⟨hr, hqr⟩
  have h2 : wattBucket r.watts ∈
      (effSamples db startDate endDate maxWatts).map
        (fun s => wattBucket s.watts) :=
    List.mem_map_of_mem _ h1
  have h3 : wattBucket r.watts ∈ fitnessWatts db startDate endDate maxWatts :=
    mem_sortBuckets.2 h2
  intro hnil
  rw [hnil] at h3
  exact List.not_mem_nil _ h3

/-! ## Claim C1: a successful `addTrace` appends one ascending trace pair -/

/-- Claim C1: for every `addTrace` call with non-empty start and end dates
for which some metrics sample qualifies (date in range, watts at most the
ceiling, heart rate strictly between 40 and 210), exactly one trace pair
is appended (one series to each store), the efficiency curve's bucket
sequence is strictly ascending, and its minimum (first) bucket is
`floor(m/5)*5` where `m` is the least watts value among the qualifying
samples. -/
theorem claim_C1_addTrace_appends (db : List MetricSample) (st : ChartState)
    (label startDate endDate : String) (maxWatts : ℚ) (silent : Bool) (m : ℚ)
    (hs : startDate.isEmpty = false) (he : endDate.isEmpty = false)
    (hmem : m ∈ (effSamples db startDate endDate maxWatts).map
      (fun r => r.watts))
    (hmin : ∀ w ∈ (effSamples db startDate endDate maxWatts).map
      (fun r => r.watts), m ≤ w) :
    (addTrace db st label startDate endDate maxWatts silent).state.traces =
      st.traces ++
        [{ x := fitnessWatts db startDate endDate maxWatts,
           y := fitnessHrs db startDate endDate maxWatts,
           name := label,
           color := COLORS[st.traces.length % COLORS.length]! }] ∧
    (addTrace db st label startDate endDate maxWatts silent).state.distTraces =
      st.distTraces ++
        [{ x := distWatts db startDate endDate maxWatts,
           y := distHours db startDate endDate maxWatts,
           name := label,
           color := COLORS[st.traces.length % COLORS.length]! }] ∧
    (fitnessWatts db startDate endDate maxWatts).Pairwise (· < ·) ∧
    (fitnessWatts db startDate endDate maxWatts).head? =
      some (wattBucket m) := by
  obtain ⟨r, hr, hrm⟩ := List.mem_map.1 hmem
  have hrdb : r ∈ db := List.mem_filter.1 hr |>.1
  have hqr : qualifiesEff startDate endDate maxWatts r = true :=
    List.mem_filter.1 hr |>.2
  have hne := fitnessWatts_ne_nil db startDate endDate maxWatts r hrdb hqr
  have hrun := addTrace_run db st label startDate endDate maxWatts silent
    hs he hne
  refine ⟨by rw [hrun], by rw [hrun], sortBuckets_pairwise _, ?_⟩
  -- the head of the ascending bucket list is the bucket of the least watts
  have hbmem : wattBucket m ∈ fitnessWatts db startDate endDate maxWatts := by
    have : wattBucket r.watts ∈
        (effSamples db startDate endDate maxWatts).map
          (fun s => wattBucket s.watts) :=
      List.mem_map_of_mem _ hr
    rw [hrm] at this
    exact mem_sortBuckets.2 this
  have hble : ∀ b ∈ fitnessWatts db startDate endDate maxWatts,
      wattBucket m ≤ b := by
    intro b hb
    obtain ⟨r2, hr2, hb2⟩ :=
      List.mem_map.1 (mem_sortBuckets.1 hb)
    have : m ≤ r2.watts := hmin _ (List.mem_map_of_mem _ hr2)
    rw [← hb2]
    exact wattBucket_mono this
  cases hB : fitnessWatts db startDate endDate maxWatts with
  | nil => exact absurd hB hne
  | cons b0 rest =>
    have hpw := sortBuckets_pairwise
      ((effSamples db startDate endDate maxWatts).map
        (fun s => wattBucket s.watts))
    rw [show sortBuckets ((effSamples db startDate endDate maxWatts).map
        (fun s => wattBucket s.watts)) =
      fitnessWatts db startDate endDate maxWatts from rfl, hB] at hpw
    rw [hB] at hbmem hble
    have h1 : b0 ≤ wattBucket m := head_le_of_pairwise hpw _ hbmem
    have h2 : wattBucket m ≤ b0 := hble b0 (List.mem_cons_self b0 rest)
    have : b0 = wattBucket m := le_antisymm h1 h2
    rw [List.head?_cons, this]

/-! ## Claim C4: palette cycling -/

/-- Claim C4: for every trace addition that appends, the assigned colour is
`COLORS[k % 8]` where `k` is the number of traces already stored at call
time, and the appended efficiency and distribution series share that
colour; `clearTraces` empties the store, so an appending `addTrace` on the
cleared store assigns `COLORS[0]`, the first palette colour `#3b82f6`. -/
theorem claim_C4_color_cycle (db : List MetricSample) (st : ChartState)
    (label startDate endDate : String) (maxWatts : ℚ) (silent : Bool)
    (happend :
      (addTrace db st label startDate endDate maxWatts silent).state.traces.length ≠
        st.traces.length) :
    ((addTrace db st label startDate endDate maxWatts
        silent).state.traces.getLast?).map Series.color =
      some (COLORS[st.traces.length % COLORS.length]!) ∧
    ((addTrace db st label startDate endDate maxWatts
        silent).state.distTraces.getLast?).map Series.color =
      some (COLORS[st.traces.length % COLORS.length]!) ∧
    (clearTraces st).traces.length = 0 ∧
    (∀ (db2 : List MetricSample) (label2 startDate2 endDate2 : String)
      (maxWatts2 : ℚ) (silent2 : Bool),
      (addTrace db2 (clearTraces st) label2 startDate2 endDate2 maxWatts2
          silent2).state.traces.length ≠ (clearTraces st).traces.length →
      ((addTrace db2 (clearTraces st) label2 startDate2 endDate2 maxWatts2
          silent2).state.traces.getLast?).map Series.color =
        some (COLORS[0]!)) ∧
    COLORS[0]! = "#3b82f6" := by
  obtain ⟨ht, hd⟩ := addTrace_append_shape db st label startDate endDate
    maxWatts silent happend
  refine ⟨?_, ?_, rfl, ?_, rfl⟩
  · rw [ht, List.getLast?_concat]
    rfl
  · rw [hd, List.getLast?_concat]
    rfl
  · intro db2 label2 startDate2 endDate2 maxWatts2 silent2 happend2
    obtain ⟨ht2, _⟩ := addTrace_append_shape db2 (clearTraces st) label2
      startDate2 endDate2 maxWatts2 silent2 happend2
    rw [ht2, List.getLast?_concat]
    rfl

/-! ## Claim C5: empty efficiency result changes nothing -/

/-- Claim C5: whenever the dates are non-empty but the efficiency query
yields zero buckets, `addTrace` appends nothing to either store (whatever
the distribution query returned), leaves every existing trace unchanged,
triggers no re-render, and notifies the user exactly when `silent` is
false. -/
theorem claim_C5_empty_range (db : List MetricSample) (st : ChartState)
    (label startDate endDate : String) (maxWatts : ℚ) (silent : Bool)
    (hs : startDate.isEmpty = false) (he : endDate.isEmpty = false)
    (hempty : fitnessWatts db startDate endDate maxWatts = []) :
    (addTrace db st label startDate endDate maxWatts silent).state = st ∧
    (addTrace db st label startDate endDate maxWatts silent).rendered =
      false ∧
    ((addTrace db st label startDate endDate maxWatts silent).alerted =
      true ↔ silent = false) := by
  simp only [addTrace]
  rw [if_neg (by simp [hs, he])]
  rw [if_pos (by simp [hempty])]
  refine ⟨rfl, rfl, ?_⟩
  cases silent <;> simp

/-! ## Claim C9: the two stores stay paired -/

/-- Claim C9: after any sequence of `addTrace` and `clearTraces`
operations from the initial empty store, the efficiency-series store and
the distribution-series store have equal length, and the entries at every
common index carry the same label and the same line colour: each logical
trace contributes exactly one paired series to each chart. -/
theorem claim_C9_stores_paired (db : List MetricSample) (ops : List ChartOp) :
    (runOps db ops).traces.length = (runOps db ops).distTraces.length ∧
    ∀ (i : Nat) (h1 : i < (runOps db ops).traces.length)
      (h2 : i < (runOps db ops).distTraces.length),
      ((runOps db ops).traces.get ⟨i, h1⟩).name =
        ((runOps db ops).distTraces.get ⟨i, h2⟩).name ∧
      ((runOps db ops).traces.get ⟨i, h1⟩).color =
        ((runOps db ops).distTraces.get ⟨i, h2⟩).color := by
  have htag := runOps_tag db ops
  have hlen : (runOps db ops).traces.length =
      (runOps db ops).distTraces.length := by
    have hl := congrArg List.length htag
    simpa [seriesTag] using hl
  refine ⟨hlen, ?_⟩
  intro i h1 h2
  have hq := congrArg (fun l => l.get? i) htag
  simp only [seriesTag, List.get?_map] at hq
  rw [List.get?_eq_get h1, List.get?_eq_get h2] at hq
  simp only [Option.map_some', Option.some.injEq, Prod.mk.injEq] at hq
  exact hq

/-! ## Witnesses for the store claims

Batteries marks the rational-number operations `@[irreducible]`; inside
this section they are restored to their definitional reducibility so that
`decide` can evaluate the embedded functions on concrete inputs. -/

section RatEval

attribute [local semireducible] Rat.add Rat.mul Rat.inv Rat.sub

/-- Witness for `claim_C1_addTrace_appends`: one qualifying sample at
100 W, so the single bucket is `wattBucket 100 = 100`. -/
theorem claim_C1_addTrace_appends_witness :
    ("2024-01-01".isEmpty = false) ∧
    ((100 : ℚ) ∈ (effSamples [⟨"2024-06-01", 100, 120, 3600⟩]
      "2024-01-01" "2024-12-31" 400).map (fun r => r.watts)) ∧
    (fitnessWatts [⟨"2024-06-01", 100, 120, 3600⟩]
      "2024-01-01" "2024-12-31" 400).Pairwise (· < ·) ∧
    (fitnessWatts [⟨"2024-06-01", 100, 120, 3600⟩]
      "2024-01-01" "2024-12-31" 400).head? = some (wattBucket 100) := by
  have h := claim_C1_addTrace_appends [⟨"2024-06-01", 100, 120, 3600⟩]
    initialState "2024" "2024-01-01" "2024-12-31" 400 true 100
    (by decide) (by decide) (by decide) (by decide)
  exact ⟨by decide, by decide, h.2.2.1, h.2.2.2⟩

/-- Witness for `claim_C4_color_cycle`: adding to the empty store appends,
and the appended trace is coloured `COLORS[0] = #3b82f6`. -/
theorem claim_C4_color_cycle_witness :
    ((addTrace [⟨"2024-06-01", 100, 120, 3600⟩] initialState "2024"
        "2024-01-01" "2024-12-31" 400 true).state.traces.length ≠
      initialState.traces.length) ∧
    ((addTrace [⟨"2024-06-01", 100, 120, 3600⟩] initialState "2024"
        "2024-01-01" "2024-12-31" 400 true).state.traces.getLast?).map
      Series.color =
        some (COLORS[initialState.traces.length % COLORS.length]!) ∧
    COLORS[0]! = "#3b82f6" := by
  have h := claim_C4_color_cycle [⟨"2024-06-01", 100, 120, 3600⟩]
    initialState "2024" "2024-01-01" "2024-12-31" 400 true (by decide)
  exact ⟨by decide, h.1, h.2.2.2.2⟩

/-- Witness for `claim_C5_empty_range`: a range with no matching rows,
added silently over a store holding one trace, changes nothing. -/
theorem claim_C5_empty_range_witness :
    ("2099-01-01".isEmpty = false) ∧
    (fitnessWatts [] "2099-01-01" "2099-12-31" 400 = []) ∧
    (addTrace []
        { traces := [{ x := [100], y := [120], name := "old",
                       color := "#3b82f6" }],
          distTraces := [{ x := [100], y := [1], name := "old",
                           color := "#3b82f6" }] }
        "2099" "2099-01-01" "2099-12-31" 400 true).state =
      { traces := [{ x := [100], y := [120], name := "old",
                     color := "#3b82f6" }],
        distTraces := [{ x := [100], y := [1], name := "old",
                         color := "#3b82f6" }] } ∧
    (addTrace []
        { traces := [{ x := [100], y := [120], name := "old",
                       color := "#3b82f6" }],
          distTraces := [{ x := [100], y := [1], name := "old",
                           color := "#3b82f6" }] }
        "2099" "2099-01-01" "2099-12-31" 400 true).rendered = false := by
  have h := claim_C5_empty_range []
    { traces := [{ x := [100], y := [120], name := "old",
                   color := "#3b82f6" }],
      distTraces := [{ x := [100], y := [1], name := "old",
                       color := "#3b82f6" }] }
    "2099" "2099-01-01" "2099-12-31" 400 true
    (by decide) (by decide) (by decide)
  exact ⟨by decide, by decide, h.1, h.2.1⟩

/-- Witness for `claim_C9_stores_paired`: one successful append leaves two
stores of length one whose entries share label and colour. -/
theorem claim_C9_stores_paired_witness :
    (0 < (runOps [⟨"2024-06-01", 100, 120, 3600⟩]
      [ChartOp.add "2024" "2024-01-01" "2024-12-31" 400 true]).traces.length) ∧
    ((runOps [⟨"2024-06-01", 100, 120, 3600⟩]
        [ChartOp.add "2024" "2024-01-01" "2024-12-31" 400
          true]).traces.get ⟨0, by decide⟩).name =
      ((runOps [⟨"2024-06-01", 100, 120, 3600⟩]
        [ChartOp.add "2024" "2024-01-01" "2024-12-31" 400
          true]).distTraces.get ⟨0, by decide⟩).name := by
  have h := (claim_C9_stores_paired [⟨"2024-06-01", 100, 120, 3600⟩]
    [ChartOp.add "2024" "2024-01-01" "2024-12-31" 400 true]).2 0
    (by decide) (by decide)
  exact ⟨by decide, h.1⟩

end RatEval

/-! ## Claim C3: efficiency buckets versus distribution buckets -/

/-- Every sample passing the efficiency filter also passes the
distribution filter, so every efficiency bucket is a distribution
bucket. -/
theorem effWatts_subset_distWatts (db : List MetricSample)
    (startDate endDate : String) (maxWatts : ℚ) :
    ∀ b ∈ fitnessWatts db startDate endDate maxWatts,
      b ∈ distWatts db startDate endDate maxWatts := by
  intro b hb
  obtain ⟨r, hr, hbr⟩ := List.mem_map.1 (mem_sortBuckets.1 hb)
  have hrdb := (List.mem_filter.1 hr).1
  have hq := (List.mem_filter.1 hr).2
  have hqd : qualifiesDist startDate endDate maxWatts r = true := by
    simp only [qualifiesEff, Bool.and_eq_true] at hq
    simp only [qualifiesDist, Bool.and_eq_true]
    exact hq.1.1
  exact mem_sortBuckets.2
    (List.mem_map.2 ⟨r, List.mem_filter.2 ⟨hrdb, hqd⟩, hbr⟩)

section RatEvalC3

attribute [local semireducible] Rat.add Rat.mul Rat.inv Rat.sub

/-- Counterexample to claim C3 as stated: a dataset whose qualifying
samples do include an out-of-band heart rate within the power ceiling
(10 W at 30 bpm), yet the efficiency and distribution bucket sets are
equal (both `[10]`), because an in-band sample (12 W at 100 bpm) occupies
the same power bucket — so the inclusion is not proper. -/
theorem claim_C3_counterexample :
    ((⟨"2024-06-01", 10, 30, 60⟩ : MetricSample) ∈
      ([⟨"2024-06-01", 10, 30, 60⟩, ⟨"2024-06-02", 12, 100, 60⟩] :
        List MetricSample)) ∧
    qualifiesDist "2024-01-01" "2024-12-31" 400
      ⟨"2024-06-01", 10, 30, 60⟩ = true ∧
    qualifiesEff "2024-01-01" "2024-12-31" 400
      ⟨"2024-06-01", 10, 30, 60⟩ = false ∧
    fitnessWatts [⟨"2024-06-01", 10, 30, 60⟩, ⟨"2024-06-02", 12, 100, 60⟩]
      "2024-01-01" "2024-12-31" 400 =
    distWatts [⟨"2024-06-01", 10, 30, 60⟩, ⟨"2024-06-02", 12, 100, 60⟩]
      "2024-01-01" "2024-12-31" 400 := by
  refine ⟨by decide, by decide, by decide, by decide⟩

end RatEvalC3

/-- Claim C3, amended: for every trace, the efficiency curve's bucket set
is a subset of the distribution curve's bucket set, and the subset is
proper whenever some sample within the date range and power ceiling has an
out-of-band heart rate (it fails the efficiency filter) and its power
bucket contains no sample passing the heart-rate filter. -/
theorem claim_C3_buckets_superset (db : List MetricSample)
    (startDate endDate : String) (maxWatts : ℚ) (r : MetricSample)
    (hr : r ∈ db) (hd : qualifiesDist startDate endDate maxWatts r = true)
    (hhr : qualifiesEff startDate endDate maxWatts r = false)
    (hout : ∀ r2 ∈ effSamples db startDate endDate maxWatts,
      wattBucket r2.watts ≠ wattBucket r.watts) :
    (∀ b ∈ fitnessWatts db startDate endDate maxWatts,
      b ∈ distWatts db startDate endDate maxWatts) ∧
    wattBucket r.watts ∈ distWatts db startDate endDate maxWatts ∧
    wattBucket r.watts ∉ fitnessWatts db startDate endDate maxWatts := by
  refine ⟨effWatts_subset_distWatts db startDate endDate maxWatts, ?_, ?_⟩
  · exact mem_sortBuckets.2
      (List.mem_map.2 ⟨r, List.mem_filter.2 ⟨hr, hd⟩, rfl⟩)
  · intro hmem
    obtain ⟨r2, hr2, hb2⟩ := List.mem_map.1 (mem_sortBuckets.1 hmem)
    exact hout r2 hr2 hb2

section RatEvalC3W

attribute [local semireducible] Rat.add Rat.mul Rat.inv Rat.sub

/-- Witness for `claim_C3_buckets_superset`: an in-band sample in bucket
10 and an out-of-band sample in bucket 20 give distribution buckets
`[10, 20]` but efficiency buckets `[10]`. -/
theorem claim_C3_buckets_superset_witness :
    ((⟨"2024-06-02", 22, 30, 60⟩ : MetricSample) ∈
      ([⟨"2024-06-01", 10, 100, 60⟩, ⟨"2024-06-02", 22, 30, 60⟩] :
        List MetricSample)) ∧
    qualifiesDist "2024-01-01" "2024-12-31" 400
      ⟨"2024-06-02", 22, 30, 60⟩ = true ∧
    wattBucket (22 : ℚ) ∈
      distWatts [⟨"2024-06-01", 10, 100, 60⟩, ⟨"2024-06-02", 22, 30, 60⟩]
        "2024-01-01" "2024-12-31" 400 ∧
    wattBucket (22 : ℚ) ∉
      fitnessWatts [⟨"2024-06-01", 10, 100, 60⟩, ⟨"2024-06-02", 22, 30, 60⟩]
        "2024-01-01" "2024-12-31" 400 := by
  have h := claim_C3_buckets_superset
    [⟨"2024-06-01", 10, 100, 60⟩, ⟨"2024-06-02", 22, 30, 60⟩]
    "2024-01-01" "2024-12-31" 400 ⟨"2024-06-02", 22, 30, 60⟩
    (by decide) (by decide) (by decide) (by decide)
  exact ⟨by decide, by decide, h.2.1, h.2.2⟩

end RatEvalC3W

/-! ## Lemmas: running minima and maxima -/

theorem foldl_min_le_init (l : List ℚ) (a : ℚ) : l.foldl min a ≤ a := by
  induction l generalizing a with
  | nil => exact le_refl a
  | cons b l ih => exact le_trans (ih (min a b)) (min_le_left a b)

theorem foldl_min_le_of_mem (l : List ℚ) (a x : ℚ) (hx : x ∈ l) :
    l.foldl min a ≤ x := by
  induction l generalizing a with
  | nil => exact absurd hx (List.not_mem_nil x)
  | cons b l ih =>
    rcases List.mem_cons.1 hx with rfl | hx
    · exact le_trans (foldl_min_le_init l (min a x)) (min_le_right a x)
    · rw [List.foldl_cons]
      exact ih (min a b) hx

theorem init_le_foldl_max (l : List ℚ) (a : ℚ) : a ≤ l.foldl max a := by
  induction l generalizing a with
  | nil => exact le_refl a
  | cons b l ih => exact le_trans (le_max_left a b) (ih (max a b))

theorem mem_le_foldl_max (l : List ℚ) (a x : ℚ) (hx : x ∈ l) :
    x ≤ l.foldl max a := by
  induction l generalizing a with
  | nil => exact absurd hx (List.not_mem_nil x)
  | cons b l ih =>
    rcases List.mem_cons.1 hx with rfl | hx
    · exact le_trans (le_max_right a x) (init_le_foldl_max l (max a x))
    · rw [List.foldl_cons]
      exact ih (max a b) hx

theorem foldl_min_const (l : List ℚ) (c : ℚ) (h : ∀ v ∈ l, v = c) :
    l.foldl min c = c := by
  induction l with
  | nil => rfl
  | cons b l ih =>
    have hb : b = c := h b (List.mem_cons_self b l)
    subst hb
    rw [List.foldl_cons, min_self]
    exact ih fun v hv => h v (List.mem_cons_of_mem b hv)

theorem foldl_max_const (l : List ℚ) (c : ℚ) (h : ∀ v ∈ l, v = c) :
    l.foldl max c = c := by
  induction l with
  | nil => rfl
  | cons b l ih =>
    have hb : b = c := h b (List.mem_cons_self b l)
    subst hb
    rw [List.foldl_cons, max_self]
    exact ih fun v hv => h v (List.mem_cons_of_mem b hv)

/-! ## Lemmas: bounding boxes -/

theorem minXOf_le {ps : List Pt} {p : Pt} (hp : p ∈ ps) :
    minXOf ps ≤ p.x := by
  cases ps with
  | nil => exact absurd hp (List.not_mem_nil p)
  | cons q l =>
    rw [minXOf, show (fun m r => min m r.x) = fun m r => min m (Pt.x r)
      from rfl, ← List.foldl_map]
    rcases List.mem_cons.1 hp with rfl | hp
    · exact foldl_min_le_init _ _
    · exact foldl_min_le_of_mem _ _ _ (List.mem_map_of_mem Pt.x hp)

theorem le_maxXOf {ps : List Pt} {p : Pt} (hp : p ∈ ps) :
    p.x ≤ maxXOf ps := by
  cases ps with
  | nil => exact absurd hp (List.not_mem_nil p)
  | cons q l =>
    rw [maxXOf, show (fun m r => max m r.x) = fun m r => max m (Pt.x r)
      from rfl, ← List.foldl_map]
    rcases List.mem_cons.1 hp with rfl | hp
    · exact init_le_foldl_max _ _
    · exact mem_le_foldl_max _ _ _ (List.mem_map_of_mem Pt.x hp)

theorem minYOf_le {ps : List Pt} {p : Pt} (hp : p ∈ ps) :
    minYOf ps ≤ p.y := by
  cases ps with
  | nil => exact absurd hp (List.not_mem_nil p)
  | cons q l =>
    rw [minYOf, show (fun m r => min m r.y) = fun m r => min m (Pt.y r)
      from rfl, ← List.foldl_map]
    rcases List.mem_cons.1 hp with rfl | hp
    · exact foldl_min_le_init _ _
    · exact foldl_min_le_of_mem _ _ _ (List.mem_map_of_mem Pt.y hp)

theorem le_maxYOf {ps : List Pt} {p : Pt} (hp : p ∈ ps) :
    p.y ≤ maxYOf ps := by
  cases ps with
  | nil => exact absurd hp (List.not_mem_nil p)
  | cons q l =>
    rw [maxYOf, show (fun m r => max m r.y) = fun m r => max m (Pt.y r)
      from rfl, ← List.foldl_map]
    rcases List.mem_cons.1 hp with rfl | hp
    · exact init_le_foldl_max _ _
    · exact mem_le_foldl_max _ _ _ (List.mem_map_of_mem Pt.y hp)

theorem minXOf_le_maxXOf {ps : List Pt} (h : ps ≠ []) :
    minXOf ps ≤ maxXOf ps := by
  cases ps with
  | nil => exact absurd rfl h
  | cons q l =>
    exact le_trans (minXOf_le (List.mem_cons_self q l))
      (le_maxXOf (List.mem_cons_self q l))

theorem minYOf_le_maxYOf {ps : List Pt} (h : ps ≠ []) :
    minYOf ps ≤ maxYOf ps := by
  cases ps with
  | nil => exact absurd rfl h
  | cons q l =>
    exact le_trans (minYOf_le (List.mem_cons_self q l))
      (le_maxYOf (List.mem_cons_self q l))

theorem padX_nonneg {ps : List Pt} (h : ps ≠ []) : 0 ≤ padX ps := by
  have := minXOf_le_maxXOf h
  rw [padX]
  have h1 : 0 ≤ maxXOf ps - minXOf ps := by linarith
  nlinarith

theorem padY_nonneg {ps : List Pt} (h : ps ≠ []) : 0 ≤ padY ps := by
  have := minYOf_le_maxYOf h
  rw [padY]
  have h1 : 0 ≤ maxYOf ps - minYOf ps := by linarith
  nlinarith

/-- The padded horizontal range is never negative, so after the `|| 1`
substitution it is strictly positive: the mapping never divides by zero. -/
theorem rangeX_pos {ps : List Pt} (h : ps ≠ []) : 0 < rangeX ps := by
  have hmm := minXOf_le_maxXOf h
  have hpad := padX_nonneg h
  rw [rangeX]
  by_cases h0 : pMaxX ps - pMinX ps = 0
  · rw [if_pos h0]
    norm_num
  · rw [if_neg h0]
    have hge : 0 ≤ pMaxX ps - pMinX ps := by
      simp only [pMaxX, pMinX]
      linarith
    exact lt_of_le_of_ne hge (Ne.symm h0)

/-- Same for the vertical range. -/
theorem rangeY_pos {ps : List Pt} (h : ps ≠ []) : 0 < rangeY ps := by
  have hmm := minYOf_le_maxYOf h
  have hpad := padY_nonneg h
  rw [rangeY]
  by_cases h0 : pMaxY ps - pMinY ps = 0
  · rw [if_pos h0]
    norm_num
  · rw [if_neg h0]
    have hge : 0 ≤ pMaxY ps - pMinY ps := by
      simp only [pMaxY, pMinY]
      linarith
    exact lt_of_le_of_ne hge (Ne.symm h0)

theorem pMinX_le {ps : List Pt} {p : Pt} (hp : p ∈ ps) : pMinX ps ≤ p.x := by
  have hne : ps ≠ [] := fun hc => List.not_mem_nil p (hc ▸ hp)
  have h1 := minXOf_le hp
  have h2 := padX_nonneg hne
  rw [pMinX]
  linarith

theorem le_pMaxX {ps : List Pt} {p : Pt} (hp : p ∈ ps) : p.x ≤ pMaxX ps := by
  have hne : ps ≠ [] := fun hc => List.not_mem_nil p (hc ▸ hp)
  have h1 := le_maxXOf hp
  have h2 := padX_nonneg hne
  rw [pMaxX]
  linarith

theorem pMinY_le {ps : List Pt} {p : Pt} (hp : p ∈ ps) : pMinY ps ≤ p.y := by
  have hne : ps ≠ [] := fun hc => List.not_mem_nil p (hc ▸ hp)
  have h1 := minYOf_le hp
  have h2 := padY_nonneg hne
  rw [pMinY]
  linarith

theorem le_pMaxY {ps : List Pt} {p : Pt} (hp : p ∈ ps) : p.y ≤ pMaxY ps := by
  have hne : ps ≠ [] := fun hc => List.not_mem_nil p (hc ▸ hp)
  have h1 := le_maxYOf hp
  have h2 := padY_nonneg hne
  rw [pMaxY]
  linarith

/-- Every point of the route maps into `[0, width]` horizontally. -/
theorem svgX_bounds {ps : List Pt} {p : Pt} (hp : p ∈ ps) {w : ℚ}
    (hw : 0 ≤ w) : 0 ≤ svgX ps w p ∧ svgX ps w p ≤ w := by
  have hne : ps ≠ [] := by rintro rfl; exact List.not_mem_nil p hp
  have h1 := pMinX_le hp
  have h2 := le_pMaxX hp
  rw [svgX]
  by_cases h0 : pMaxX ps - pMinX ps = 0
  · have hx0 : p.x - pMinX ps = 0 := by linarith
    rw [hx0, zero_div, zero_mul]
    exact ⟨le_refl 0, hw⟩
  · have hrpos : 0 < rangeX ps := rangeX_pos hne
    have hre : rangeX ps = pMaxX ps - pMinX ps := by
      rw [rangeX, if_neg h0]
    constructor
    · exact mul_nonneg (div_nonneg (by linarith) (le_of_lt hrpos)) hw
    · have hratio : (p.x - pMinX ps) / rangeX ps ≤ 1 := by
        rw [div_le_one hrpos, hre]
        linarith
      calc (p.x - pMinX ps) / rangeX ps * w ≤ 1 * w :=
            mul_le_mul_of_nonneg_right hratio hw
        _ = w := one_mul w

/-- Every point of the route maps into `[0, height]` vertically. -/
theorem svgY_bounds {ps : List Pt} {p : Pt} (hp : p ∈ ps) {h : ℚ}
    (hh : 0 ≤ h) : 0 ≤ svgY ps h p ∧ svgY ps h p ≤ h := by
  have hne : ps ≠ [] := by rintro rfl; exact List.not_mem_nil p hp
  have h1 := pMinY_le hp
  have h2 := le_pMaxY hp
  rw [svgY]
  by_cases h0 : pMaxY ps - pMinY ps = 0
  · have hy0 : p.y - pMinY ps = 0 := by linarith
    rw [hy0, zero_div, zero_mul, sub_zero]
    exact ⟨hh, le_refl h⟩
  · have hrpos : 0 < rangeY ps := rangeY_pos hne
    have hre : rangeY ps = pMaxY ps - pMinY ps := by
      rw [rangeY, if_neg h0]
    have hnum : 0 ≤ (p.y - pMinY ps) / rangeY ps :=
      div_nonneg (by linarith) (le_of_lt hrpos)
    have hratio : (p.y - pMinY ps) / rangeY ps ≤ 1 := by
      rw [div_le_one hrpos, hre]
      linarith
    constructor
    · have : (p.y - pMinY ps) / rangeY ps * h ≤ 1 * h :=
        mul_le_mul_of_nonneg_right hratio hh
      linarith
    · have : 0 ≤ (p.y - pMinY ps) / rangeY ps * h := mul_nonneg hnum hh
      linarith

/-- The vertical axis is inverted: a larger latitude maps strictly lower
in SVG coordinates. -/
theorem svgY_inverted {ps : List Pt} {p q : Pt} (hp : p ∈ ps) (hq : q ∈ ps)
    {h : ℚ} (hh : 0 < h) (hpq : p.y < q.y) :
    svgY ps h q < svgY ps h p := by
  have hne : ps ≠ [] := by rintro rfl; exact List.not_mem_nil p hp
  have hry : 0 < rangeY ps := rangeY_pos hne
  rw [svgY, svgY]
  have hlt : (p.y - pMinY ps) / rangeY ps < (q.y - pMinY ps) / rangeY ps :=
    (div_lt_div_iff_of_pos_right hry).2 (by linarith)
  have := mul_lt_mul_of_pos_right hlt hh
  linarith

/-! ## Claim C7: static route normalization is safe and inverted -/

/-- Claim C7: for every non-empty parsed route geometry, the padded
bounding box expands the raw bounding box by 5% on each side (the padded
range is 11/10 of the raw range on each axis), both substituted ranges are
strictly positive — the mapping never divides by zero — every point maps
into the `width × height` viewport, and the vertical axis is inverted: a
strictly larger latitude maps to a strictly smaller vertical
coordinate. -/
theorem claim_C7_route_normalization (ps : List Pt) (w h : ℚ)
    (hps : ps ≠ []) :
    0 < rangeX ps ∧ 0 < rangeY ps ∧
    pMaxX ps - pMinX ps = (11 / 10) * (maxXOf ps - minXOf ps) ∧
    pMaxY ps - pMinY ps = (11 / 10) * (maxYOf ps - minYOf ps) ∧
    (0 ≤ w → ∀ p ∈ ps, 0 ≤ svgX ps w p ∧ svgX ps w p ≤ w) ∧
    (0 ≤ h → ∀ p ∈ ps, 0 ≤ svgY ps h p ∧ svgY ps h p ≤ h) ∧
    (0 < h → ∀ p ∈ ps, ∀ q ∈ ps, p.y < q.y → svgY ps h q < svgY ps h p) := by
  refine ⟨rangeX_pos hps, rangeY_pos hps, ?_, ?_, ?_, ?_, ?_⟩
  · simp only [pMaxX, pMinX, padX]
    ring
  · simp only [pMaxY, pMinY, padY]
    ring
  · intro hw p hp
    exact svgX_bounds hp hw
  · intro hh p hp
    exact svgY_bounds hp hh
  · intro hh p hp q hq hpq
    exact svgY_inverted hp hq hh hpq

/-- Witness for `claim_C7_route_normalization` on the two-point route
`(0,0) – (1,2)` in the 300 × 120 viewport of the source. -/
theorem claim_C7_route_normalization_witness :
    (([⟨0, 0⟩, ⟨1, 2⟩] : List Pt) ≠ []) ∧
    0 < rangeX [(⟨0, 0⟩ : Pt), ⟨1, 2⟩] ∧
    (0 ≤ svgX [(⟨0, 0⟩ : Pt), ⟨1, 2⟩] 300 ⟨0, 0⟩ ∧
      svgX [(⟨0, 0⟩ : Pt), ⟨1, 2⟩] 300 ⟨0, 0⟩ ≤ 300) ∧
    svgY [(⟨0, 0⟩ : Pt), ⟨1, 2⟩] 120 ⟨1, 2⟩ <
      svgY [(⟨0, 0⟩ : Pt), ⟨1, 2⟩] 120 ⟨0, 0⟩ := by
  have h := claim_C7_route_normalization [⟨0, 0⟩, ⟨1, 2⟩] 300 120 (by decide)
  refine ⟨by decide, h.1, ?_, ?_⟩
  · exact h.2.2.2.2.1 (by norm_num) ⟨0, 0⟩ (by decide)
  · exact h.2.2.2.2.2.2 (by norm_num) ⟨0, 0⟩ (by decide) ⟨1, 2⟩ (by decide)
      (by norm_num)

/-! ## Claim C8: constant streams draw a flat sparkline -/

theorem mem_jsMapIdx {α β : Type _} (f : Nat → α → β) :
    ∀ (l : List α) (i : Nat) (b : β), b ∈ jsMapIdx f i l →
      ∃ j a, a ∈ l ∧ b = f j a := by
  intro l
  induction l with
  | nil => intro i b hb; exact absurd hb (List.not_mem_nil b)
  | cons x xs ih =>
    intro i b hb
    rcases List.mem_cons.1 hb with rfl | hb
    · exact ⟨i, x, List.mem_cons_self x xs, rfl⟩
    · obtain ⟨j, a, ha, hba⟩ := ih (i + 1) b hb
      exact ⟨j, a, List.mem_cons_of_mem x ha, hba⟩

theorem listMin_const (data : List ℚ) (c : ℚ) (hne : data ≠ [])
    (hconst : ∀ v ∈ data, v = c) : listMin data = c := by
  cases data with
  | nil => exact absurd rfl hne
  | cons a l =>
    rw [listMin]
    have ha : a = c := hconst a (List.mem_cons_self a l)
    subst ha
    exact foldl_min_const l a fun v hv => hconst v (List.mem_cons_of_mem a hv)

theorem listMax_const (data : List ℚ) (c : ℚ) (hne : data ≠ [])
    (hconst : ∀ v ∈ data, v = c) : listMax data = c := by
  cases data with
  | nil => exact absurd rfl hne
  | cons a l =>
    rw [listMax]
    have ha : a = c := hconst a (List.mem_cons_self a l)
    subst ha
    exact foldl_max_const l a fun v hv => hconst v (List.mem_cons_of_mem a hv)

/-- Claim C8: for every non-empty constant-valued stream, the zero value
range is replaced by 1 — so the vertical mapping never divides by zero —
and every point of the sparkline polyline sits at the same deterministic
vertical position (`height`, since each value equals the stream
minimum). -/
theorem claim_C8_constant_sparkline (data : List ℚ) (w h c : ℚ)
    (hne : data ≠ []) (hconst : ∀ v ∈ data, v = c) :
    sparkRange data = 1 ∧
    ∀ pt ∈ sparkPoints data w h, pt.2 = h := by
  have hmin := listMin_const data c hne hconst
  have hmax := listMax_const data c hne hconst
  have hrange : sparkRange data = 1 := by
    rw [sparkRange, hmin, hmax]
    simp
  refine ⟨hrange, ?_⟩
  intro pt hpt
  obtain ⟨j, v, hv, rfl⟩ := mem_jsMapIdx _ data 0 pt hpt
  have hvc : v = c := hconst v hv
  show sparkY data h v = h
  rw [sparkY, hmin, hrange, hvc]
  simp

section RatEvalC8

attribute [local semireducible] Rat.add Rat.mul Rat.inv Rat.sub

/-- Witness for `claim_C8_constant_sparkline` on the constant stream
`[2, 2, 2]` drawn in the 300 × 40 sparkline box of the source. -/
theorem claim_C8_constant_sparkline_witness :
    (([2, 2, 2] : List ℚ) ≠ []) ∧
    sparkRange [2, 2, 2] = 1 ∧
    ((0 : ℚ), (40 : ℚ)) ∈ sparkPoints [2, 2, 2] 300 40 ∧
    (((0 : ℚ), (40 : ℚ)) : ℚ × ℚ).2 = 40 := by
  have h := claim_C8_constant_sparkline [2, 2, 2] 300 40 2 (by decide)
    (by decide)
  exact ⟨by decide, h.1, by decide, h.2 ((0 : ℚ), (40 : ℚ)) (by decide)⟩

end RatEvalC8

/-! ## Claim C6: malformed geometry only drops that card's path -/

/-- A geometry string that does not start with `LINESTRING` parses to the
empty point sequence. -/
theorem parseWKT_not_linestring {w : String}
    (h : jsStartsWith w "LINESTRING" = false) : parseWKT w = [] := by
  rw [parseWKT, if_pos]
  rw [h]
  rfl

/-- Each visual card is exactly the rendering of its own route row. -/
theorem renderCards_get (rows : List RouteRow) (i : Nat)
    (h1 : i < rows.length) (h2 : i < (renderWorkoutCards rows).length) :
    (renderWorkoutCards rows).get ⟨i, h2⟩ = renderCard (rows.get ⟨i, h1⟩) := by
  have hq : (renderWorkoutCards rows).get? i =
      some (renderCard (rows.get ⟨i, h1⟩)) := by
    rw [renderWorkoutCards, List.get?_map, List.get?_eq_get h1]
    rfl
  rw [List.get?_eq_get h2] at hq
  exact Option.some.inj hq

/-- Counterexample to claim C6 as stated: the malformed geometry string
`"LINESTRING"` (prefix only, no coordinate list) is not rejected by the
parser, because the guard only tests the `LINESTRING` prefix.  Instead of
the empty point sequence the claim requires, parsing yields one junk point
(`substring(indexOf('(')+1, lastIndexOf(')'))` clamps to the empty string,
which splits to one empty token; JavaScript produces `[[0, undefined]]`),
so a card rendered from such a row has a non-empty coordinate list and its
path is not omitted. -/
theorem claim_C6_counterexample :
    jsStartsWith "LINESTRING" "LINESTRING" = true ∧
    parseWKT "LINESTRING" = [⟨0, 0⟩] ∧
    parseWKT "LINESTRING" ≠ [] ∧
    (renderCard ⟨"id", "a", "2024-01-01", "LINESTRING",
      [], [], 0, 0, 0⟩).coords ≠ [] := by
  refine ⟨by decide, by decide, by decide, by decide⟩

/-- Claim C6, amended: when one of the selected routes has a geometry
string that fails the `LINESTRING` prefix guard (null, empty, or not
starting with `LINESTRING`), the parser yields an empty point sequence
for it and its card carries no path, yet the renderer still produces one
card per route; the malformed record's card keeps its stats and both
sparklines, and every card is a function of its own row only, so the
other records are unaffected. -/
theorem claim_C6_malformed_geometry (rows : List RouteRow) (i : Nat)
    (h1 : i < rows.length)
    (hbad : jsStartsWith (rows.get ⟨i, h1⟩).wkt_geometry "LINESTRING" =
      false) :
    parseWKT (rows.get ⟨i, h1⟩).wkt_geometry = [] ∧
    (renderWorkoutCards rows).length = rows.length ∧
    (∀ h2 : i < (renderWorkoutCards rows).length,
      ((renderWorkoutCards rows).get ⟨i, h2⟩).coords = [] ∧
      ((renderWorkoutCards rows).get ⟨i, h2⟩).powerLine =
        generateSparkline (sample (rows.get ⟨i, h1⟩).watts_stream 150)
          300 40 "#93c5fd" ∧
      ((renderWorkoutCards rows).get ⟨i, h2⟩).hrLine =
        generateSparkline (sample (rows.get ⟨i, h1⟩).hr_stream 150)
          300 40 "#fca5a5" ∧
      ((renderWorkoutCards rows).get ⟨i, h2⟩).avgHr =
        jsRound (rows.get ⟨i, h1⟩).avg_hr ∧
      ((renderWorkoutCards rows).get ⟨i, h2⟩).avgWatts =
        jsRound (rows.get ⟨i, h1⟩).avg_watts ∧
      ((renderWorkoutCards rows).get ⟨i, h2⟩).hours =
        fmt1 ((rows.get ⟨i, h1⟩).duration_seconds / 3600)) ∧
    (∀ j : Nat, (renderWorkoutCards rows).get? j =
      (rows.get? j).map renderCard) := by
  refine ⟨parseWKT_not_linestring hbad, ?_, ?_, ?_⟩
  · rw [renderWorkoutCards, List.length_map]
  · intro h2
    rw [renderCards_get rows i h1 h2]
    refine ⟨?_, rfl, rfl, rfl, rfl, rfl⟩
    show parseWKT (rows.get ⟨i, h1⟩).wkt_geometry = []
    exact parseWKT_not_linestring hbad
  · intro j
    rw [renderWorkoutCards, List.get?_map]

/-- Witness for `claim_C6_malformed_geometry`: two routes, the second with
geometry `"xyz"`; both cards render, the second without a path. -/
theorem claim_C6_malformed_geometry_witness :
    jsStartsWith
      (([⟨"id1", "a", "2024-01-01", "xyz", [], [], 0, 0, 0⟩,
         ⟨"id2", "b", "2024-01-02", "xyz", [1, 2], [3, 4], 10, 20, 7200⟩] :
        List RouteRow).get ⟨1, by decide⟩).wkt_geometry "LINESTRING" =
      false ∧
    (renderWorkoutCards
      [⟨"id1", "a", "2024-01-01", "xyz", [], [], 0, 0, 0⟩,
       ⟨"id2", "b", "2024-01-02", "xyz", [1, 2], [3, 4], 10, 20,
        7200⟩]).length =
      ([⟨"id1", "a", "2024-01-01", "xyz", [], [], 0, 0, 0⟩,
        ⟨"id2", "b", "2024-01-02", "xyz", [1, 2], [3, 4], 10, 20, 7200⟩] :
       List RouteRow).length ∧
    ((renderWorkoutCards
      [⟨"id1", "a", "2024-01-01", "xyz", [], [], 0, 0, 0⟩,
       ⟨"id2", "b", "2024-01-02", "xyz", [1, 2], [3, 4], 10, 20,
        7200⟩]).get ⟨1, by decide⟩).coords = [] := by
  have h := claim_C6_malformed_geometry
    [⟨"id1", "a", "2024-01-01", "xyz", [], [], 0, 0, 0⟩,
     ⟨"id2", "b", "2024-01-02", "xyz", [1, 2], [3, 4], 10, 20, 7200⟩]
    1 (by decide) (by decide)
  exact ⟨by decide, h.2.1, (h.2.2.1 (by decide)).1⟩

/-! ## Claim C2: stride decimation -/

/-- Claim C2: for every stream and target count 150, `sample` returns the
stream unchanged when its length is at most 150; otherwise, with
`step = ceil(length / 150)`, it returns exactly the elements at indices
that are multiples of `step`, in their original order; in particular a
stream of length 301 yields step 3 and exactly 101 retained samples, at
indices `0, 3, ..., 300`. -/
theorem claim_C2_sample_stride {α : Type _} (arr : List α) :
    (arr.length ≤ 150 → sample arr 150 = arr) ∧
    (150 < arr.length →
      ∀ j, (sample arr 150).get? j =
        arr.get? (j * ((arr.length + 150 - 1) / 150))) ∧
    (arr.length = 301 →
      (arr.length + 150 - 1) / 150 = 3 ∧
      (sample arr 150).length = 101 ∧
      ∀ j, (sample arr 150).get? j = arr.get? (j * 3)) := by
  refine ⟨?_, ?_, ?_⟩
  · intro h
    unfold sample
    rw [if_pos h]
  · intro h j
    exact sample_get? arr 150 (by norm_num) h j
  · intro h
    have hstep : (arr.length + 150 - 1) / 150 = 3 := by omega
    refine ⟨hstep, ?_, ?_⟩
    · have h1 := sample_get? arr 150 (by norm_num) (by omega) 101
      rw [hstep] at h1
      have h1n : arr.get? (101 * 3) = none := by
        rw [List.get?_eq_none]
        omega
      rw [h1n] at h1
      have hle : (sample arr 150).length ≤ 101 := List.get?_eq_none.1 h1
      have h2 := sample_get? arr 150 (by norm_num) (by omega) 100
      rw [hstep] at h2
      have h2s : (sample arr 150).get? 100 ≠ none := by
        rw [h2]
        intro hc
        rw [List.get?_eq_none] at hc
        omega
      have h100 : ¬ (sample arr 150).length ≤ 100 :=
        fun hc => h2s (List.get?_eq_none.2 hc)
      omega
    · intro j
      have hj := sample_get? arr 150 (by norm_num) (by omega) j
      rwa [hstep] at hj

/-- Witness for `claim_C2_sample_stride`: the stream `0, 1, ..., 300` of
length 301 is downsampled to exactly 101 points. -/
theorem claim_C2_sample_stride_witness :
    (List.range 301).length = 301 ∧
    (sample (List.range 301) 150).length = 101 := by
  have h :=
    (claim_C2_sample_stride (List.range 301)).2.2 (by rw [List.length_range])
  exact ⟨by rw [List.length_range], h.2.1⟩

/-! ## Claim C10: bounds and subsequence property of `sample` -/

/-- Claim C10: for every input stream, `sample` with target 150 returns at
most 150 elements, keeps the first element (the heads agree, so index 0 is
retained whenever the input is non-empty), and returns a sublist of the
input: elements in their original order, none altered. -/
theorem claim_C10_sample_bounds {α : Type _} (arr : List α) :
    (sample arr 150).length ≤ 150 ∧
    (sample arr 150).head? = arr.head? ∧
    (sample arr 150).Sublist arr :=
  ⟨sample_length_le arr, sample_head? arr 150, sample_sublist arr 150⟩

end Intervals
